import Mathlib

set_option maxHeartbeats 1000000

namespace RepoDB

/-- A row of the repoDB csv (`full.csv` is read with `na_filter=False`, so every
cell is a literal string; in particular `"NA"` tokens survive as strings).
`drug_name` is an `Option String` because the name-revision loop of
`revise_drugbank_name` stores the Python value `None` into that cell whenever the
mychem.info lookup reports the identifier as not found; all other columns always
hold plain strings. -/
structure Row where
  drug_name : Option String
  drugbank_id : String
  ind_name : String
  ind_id : String
  NCT : String
  status : String
  phase : String
  DetailedStatus : String
  deriving DecidableEq

/-- Lookup in a Python dict represented by the association list of the key/value
pairs in insertion order: a later binding of a key overwrites an earlier one,
exactly as repeated assignment to the same key does while a dict comprehension
runs.  `dictGet d k = none` models `k not in d`. -/
def dictGet (d : List (String × Option String)) (k : String) : Option (Option String) :=
  match d with
  | [] => none
  | (k', v) :: rest =>
    match dictGet rest k with
    | some v' => some v'
    | none => if k' = k then some v else none

/-- Embedding of `_query_drugbank_names` (parser.py lines 101-143).  The network
POST is modelled by a fixed total function `api : String → Option String` from an
identifier to its optional drugbank name: the JSON response carries one entry per
queried identifier, with a `drugbank.name` field exactly when the identifier
resolves and `notfound` otherwise, and the dict comprehension
`{entry["query"]: (entry["drugbank"]["name"] if "drugbank" in entry else None) ...}`
therefore produces the pair `(i, api i)` for every queried identifier `i`
(not-found identifiers are present, with value `None`). -/
def _query_drugbank_names (api : String → Option String) (drugbank_ids : List String) :
    List (String × Option String) :=
  drugbank_ids.map (fun i => (i, api i))

/-- Fuelled worker for `makeBatches`: one step emits `l.take batch_size` and
recurses on `l.drop batch_size`.  The fuel is instantiated with the length of the
whole list, which suffices whenever `batch_size ≥ 1` (Python's
`range(0, len(ids), batch_size)` likewise requires a positive step; a zero step
raises `ValueError` and never occurs at the call sites). -/
def makeBatchesGo : Nat → Nat → List String → List (List String)
  | _, _, [] => []
  | 0, _, _ => []
  | fuel + 1, batch_size, l => l.take batch_size :: makeBatchesGo fuel batch_size (l.drop batch_size)

/-- Embedding of `[drugbank_ids[i:i+batch_size] for i in range(0, len(drugbank_ids), batch_size)]`
(parser.py line 162). -/
def makeBatches (batch_size : Nat) (l : List String) : List (List String) :=
  makeBatchesGo l.length batch_size l

/-- Embedding of `batch_query_drugbank_names` (parser.py lines 145-166).  The
`batch_size` argument is `Option Nat` because Python allows `batch_size=None`
(which disables batching); the default call sites pass `some 1000`.
`dict(ChainMap(*id_name_map_batches))` resolves every key in favour of the
earliest map that contains it; as a last-binding-wins association list that is
the concatenation of the per-batch lists in reverse order. -/
def batch_query_drugbank_names (api : String → Option String) (drugbank_ids : List String)
    (batch_size : Option Nat) : List (String × Option String) :=
  match batch_size with
  | none => _query_drugbank_names api drugbank_ids
  | some B =>
    if drugbank_ids.length ≤ B then
      _query_drugbank_names api drugbank_ids
    else
      let drugbank_id_batches := makeBatches B drugbank_ids
      let id_name_map_batches := drugbank_id_batches.map (_query_drugbank_names api)
      (id_name_map_batches.reverse).flatten

/-- Worker for `uniqueList`: keeps the first occurrence of each element, skipping
elements already seen. -/
def uniqueAux {α : Type} [DecidableEq α] (seen : List α) : List α → List α
  | [] => []
  | a :: l => if a ∈ seen then uniqueAux seen l else a :: uniqueAux (a :: seen) l

/-- Embedding of `pandas.Series.unique()`: the distinct values in order of first
occurrence. -/
def uniqueList {α : Type} [DecidableEq α] (l : List α) : List α :=
  uniqueAux [] l

/-- Embedding of the name-correction loop of `revise_drugbank_name`
(parser.py lines 220-225): query the unique identifiers, then for each row set
`drug_name` to the looked-up value whenever the row's identifier is a key of the
map.  (The dataframe here is all-string, hence single-block, so the `iterrows`
row Series is a view and the assignment writes through to the frame.)  Note that
every row's identifier is a key of the map, because the map was built from the
frame's own identifiers, so the stored value can be `none` when the identifier
did not resolve. -/
def correct_drug_names (api : String → Option String) (repoDB_df : List Row) : List Row :=
  let drugbank_ids := uniqueList (repoDB_df.map (fun r => r.drugbank_id))
  let id_name_map := batch_query_drugbank_names api drugbank_ids (some 1000)
  repoDB_df.map (fun row =>
    match dictGet id_name_map row.drugbank_id with
    | some name => { row with drug_name := name }
    | none => row)

/-- The pair of cells `drop_duplicates(subset=["drug_name", "drugbank_id"])`
deduplicates on. -/
def keyOf (r : Row) : Option String × String := (r.drug_name, r.drugbank_id)

/-- Worker for `dropDuplicates`: keeps the first row carrying each
`(drug_name, drugbank_id)` pair. -/
def dropDupAux (seen : List (Option String × String)) : List Row → List Row
  | [] => []
  | r :: l =>
    if keyOf r ∈ seen then dropDupAux seen l
    else r :: dropDupAux (keyOf r :: seen) l

/-- Embedding of `df.drop_duplicates(subset=["drug_name", "drugbank_id"])`
(parser.py line 250): later rows whose pair of key cells equals that of an
earlier row are removed. -/
def dropDuplicates (df : List Row) : List Row := dropDupAux [] df

/-- Maximum of a list of counts; `none` for the empty list, modelling that
`pandas.Series.max()` of an empty series is `NaN` (and `NaN == 1` is `False`). -/
def listMax? : List Nat → Option Nat
  | [] => none
  | a :: l =>
    match listMax? l with
    | none => some a
    | some b => some (max a b)

/-- Embedding of `is_one_to_one(df, "drug_name", "drugbank_id")`
(parser.py lines 231-254), specialised to its single call site.  After dropping
duplicate pairs, `df.groupby("drug_name")["drugbank_id"].count()` groups by the
non-null drug names (pandas excludes null group keys) and counts the (always
non-null) identifiers in each group, and the symmetric expression groups by
identifier and counts the non-null drug names.  Both maxima must equal 1. -/
def is_one_to_one (df : List Row) : Bool :=
  let d := dropDuplicates df
  let injKeys := uniqueList (d.filterMap (fun r => r.drug_name))
  let injCounts := injKeys.map (fun n => (d.filter (fun r => decide (r.drug_name = some n))).length)
  let surKeys := uniqueList (d.map (fun r => r.drugbank_id))
  let surCounts := surKeys.map (fun i =>
    (d.filter (fun r => decide (r.drugbank_id = i ∧ r.drug_name.isSome = true))).length)
  decide (listMax? injCounts = some 1) && decide (listMax? surCounts = some 1)

/-- Embedding of `revise_drugbank_name` (parser.py lines 172-229): run the
correction loop, then `assert is_one_to_one(...)`.  A failing assertion raises
`AssertionError`, modelled by `none`. -/
def revise_drugbank_name (api : String → Option String) (repoDB_df : List Row) :
    Option (List Row) :=
  let revised := correct_drug_names api repoDB_df
  if is_one_to_one revised then some revised else none

/-- The pattern `"\n    "` (a newline followed by four spaces) as a character
list. -/
def nl4 : List Char := ['\n', ' ', ' ', ' ', ' ']

/-- Fuelled worker embedding Python's `str.replace("\n    ", " ")`: scan left to
right; at a position where the pattern is a prefix, emit one space and continue
after the five consumed characters, otherwise keep the character and move on.
One unit of fuel per consumed character suffices, so the fuel is instantiated
with the length of the string. -/
def replaceNl4Go : Nat → List Char → List Char
  | _, [] => []
  | 0, l => l
  | fuel + 1, c :: cs =>
    if nl4.isPrefixOf (c :: cs) then ' ' :: replaceNl4Go fuel (cs.drop 4)
    else c :: replaceNl4Go fuel cs

/-- Embedding of `series.DetailedStatus.replace("\n    ", " ")`
(parser.py line 271). -/
def pyReplaceNl4 (s : String) : String :=
  String.mk (replaceNl4Go s.data.length s.data)

/-- The fields of an `IndicationEntry` object (parser.py lines 260-271);
`vars(ind)` in `to_dict` exposes exactly these fields. -/
structure IndicationEntry where
  name : String
  umls : String
  NCT : String
  status : String
  phase : String
  detailed_status : String
  deriving DecidableEq

/-- Embedding of `IndicationEntry.__init__` (parser.py lines 261-271). -/
def IndicationEntry.ofRow (series : Row) : IndicationEntry :=
  { name := series.ind_name
    umls := series.ind_id
    NCT := series.NCT
    status := series.status
    phase := series.phase
    detailed_status := pyReplaceNl4 series.DetailedStatus }

/-- Embedding of `DrugEntry` (parser.py lines 273-277). -/
structure DrugEntry where
  id : String
  name : String
  deriving DecidableEq

/-- Embedding of `RepoDBDoc` (parser.py lines 279-289). -/
structure RepoDBDoc where
  drug : DrugEntry
  indications : List IndicationEntry
  deriving DecidableEq

/-- The nested dictionary stored under the `"repodb"` key of an output
document. -/
structure RepodbSection where
  drugbank : String
  name : String
  indications : List IndicationEntry
  deriving DecidableEq

/-- The dictionary returned by `RepoDBDoc.to_dict` (parser.py lines 291-302):
a top-level `"_id"` key and the nested `"repodb"` section. -/
structure RepoDBDocDict where
  _id : String
  repodb : RepodbSection
  deriving DecidableEq

/-- Embedding of `RepoDBDoc.to_dict` (parser.py lines 291-302). -/
def RepoDBDoc.to_dict (doc : RepoDBDoc) : RepoDBDocDict :=
  { _id := doc.drug.id
    repodb :=
      { drugbank := doc.drug.id
        name := doc.drug.name
        indications := doc.indications } }

/-- Lexicographic comparison of character lists (Python strings compare
lexicographically by code point). -/
def listLtb : List Char → List Char → Bool
  | [], [] => false
  | [], _ :: _ => true
  | _ :: _, [] => false
  | c :: cs, d :: ds => if c < d then true else if d < c then false else listLtb cs ds

/-- Strict lexicographic comparison of strings. -/
def strLtb (a b : String) : Bool := listLtb a.data b.data

/-- Lexicographic order on group keys, mirroring how pandas sorts the
`(drugbank_id, drug_name)` group keys (tuples of Python strings compare
lexicographically). -/
def keyLe (a b : String × String) : Bool :=
  strLtb a.1 b.1 || (a.1 == b.1 && !(strLtb b.2 a.2))

/-- Insertion step of the sorting of group keys. -/
def insertSorted (a : String × String) : List (String × String) → List (String × String)
  | [] => [a]
  | b :: l => if keyLe a b then a :: b :: l else b :: insertSorted a l

/-- Sorting of the group keys (pandas `groupby` yields its groups with sorted
keys by default). -/
def sortKeys : List (String × String) → List (String × String)
  | [] => []
  | a :: l => insertSorted a (sortKeys l)

/-- The keys over which `repoDB_df.groupby(["drugbank_id", "drug_name"])`
iterates (parser.py line 313): the distinct `(drugbank_id, drug_name)` pairs
whose `drug_name` is not null (pandas drops groups with a null key component),
in sorted order. -/
def groupbyKeys (df : List Row) : List (String × String) :=
  sortKeys (uniqueList (df.filterMap (fun r => r.drug_name.map (fun n => (r.drugbank_id, n)))))

/-- Embedding of `load_data` (parser.py lines 304-320), with the csv reading
(out of scope) replaced by the dataframe argument: revise the names, then yield
one `RepoDBDoc.to_dict()` per group of `groupby(["drugbank_id", "drug_name"])`,
the group's rows (in original order) becoming the indication entries.  An
`AssertionError` escaping `revise_drugbank_name` is modelled by `none`. -/
def load_data (api : String → Option String) (repoDB_df : List Row) :
    Option (List RepoDBDocDict) :=
  match revise_drugbank_name api repoDB_df with
  | none => none
  | some df =>
    some ((groupbyKeys df).map (fun drug_tuple =>
      let drug_entry : DrugEntry := { id := drug_tuple.1, name := drug_tuple.2 }
      let indication_entries :=
        (df.filter (fun r =>
          decide (r.drugbank_id = drug_tuple.1 ∧ r.drug_name = some drug_tuple.2))).map
          IndicationEntry.ofRow
      (RepoDBDoc.mk drug_entry indication_entries).to_dict))

/-- The successive argument lists passed to the POST helper
`_query_drugbank_names` by `batch_query_drugbank_names` (parser.py lines
159-163): the whole list when batching is disabled or the list fits in one
batch, and the slices `drugbank_ids[i:i+batch_size]` otherwise. -/
def postedBatches (drugbank_ids : List String) (batch_size : Option Nat) : List (List String) :=
  match batch_size with
  | none => [drugbank_ids]
  | some B =>
    if drugbank_ids.length ≤ B then [drugbank_ids]
    else makeBatches B drugbank_ids

/-- Helper for stating document counts: the identifiers of the rows whose api
lookup resolves to a name (with multiplicity, in row order). -/
def resolvedIds (api : String → Option String) (df : List Row) : List String :=
  df.filterMap fun r => if (api r.drugbank_id).isSome then some r.drugbank_id else none

/-- Convenience constructor for concrete test rows. -/
def mkRow (name : Option String) (i : String) (ind : String) : Row :=
  { drug_name := name
    drugbank_id := i
    ind_name := ind
    ind_id := "C0000001"
    NCT := "NA"
    status := "Approved"
    phase := "NA"
    DetailedStatus := "NA" }

/-- Specification-level description, following the words of the claim, of
replacing every occurrence of a newline followed by four spaces with a single
space: the scan either is at the end, or sits on an occurrence of the pattern
(which becomes one space), or keeps a character not starting an occurrence. -/
inductive ReplacedNl4 : List Char → List Char → Prop
  | nil : ReplacedNl4 [] []
  | hit (s t : List Char) : ReplacedNl4 s t → ReplacedNl4 (nl4 ++ s) (' ' :: t)
  | keep (c : Char) (s t : List Char) : nl4.isPrefixOf (c :: s) = false →
      ReplacedNl4 s t → ReplacedNl4 (c :: s) (c :: t)

/-- Helper for stating frame conditions: a row with its `drug_name` cell
cleared, so that equality of stripped rows says exactly that every column other
than `drug_name` agrees. -/
def stripName (r : Row) : Row := { r with drug_name := none }

/-- The row produced by the correction loop: `drug_name` is overwritten with the
api's answer for the row's identifier. -/
def apiName (api : String → Option String) (r : Row) : Row :=
  { r with drug_name := api r.drugbank_id }

/-- Unfolding of `dictGet` on a cons cell. -/
theorem dictGet_cons (k' : String) (v : Option String) (rest : List (String × Option String))
    (k : String) :
    dictGet ((k', v) :: rest) k =
      match dictGet rest k with
      | some v' => some v'
      | none => if k' = k then some v else none := rfl

/-- The dict produced by one POST call maps exactly the queried identifiers,
each to the api's answer for it. -/
theorem dictGet_query (api : String → Option String) (l : List String) (k : String) :
    dictGet (_query_drugbank_names api l) k = if k ∈ l then some (api k) else none := by
  induction l with
  | nil => rfl
  | cons i l ih =>
    rw [show _query_drugbank_names api (i :: l) = (i, api i) :: _query_drugbank_names api l from rfl]
    rw [dictGet_cons, ih]
    by_cases hk : k ∈ l
    · simp [hk]
    · by_cases hik : i = k
      · subst hik
        simp [hk]
      · have h' : k ∉ i :: l := by
          intro h
          rcases List.mem_cons.mp h with e | h
          · exact hik e.symm
          · exact hk h
        simp [hk, hik, h']

/-- Lookup in the concatenation of two dicts: the later dict wins. -/
theorem dictGet_append (d₁ d₂ : List (String × Option String)) (k : String) :
    dictGet (d₁ ++ d₂) k =
      match dictGet d₂ k with
      | some v => some v
      | none => dictGet d₁ k := by
  induction d₁ with
  | nil =>
    rw [List.nil_append]
    cases dictGet d₂ k <;> rfl
  | cons p d₁ ih =>
    obtain ⟨k', v⟩ := p
    rw [List.cons_append, dictGet_cons, ih, dictGet_cons]
    cases dictGet d₂ k <;> cases dictGet d₁ k <;> rfl

/-- Lookup in the reverse-concatenated per-batch dicts (the value of
`dict(ChainMap(*id_name_map_batches))`): any identifier occurring in some batch
is mapped to the api's answer for it. -/
theorem dictGet_flatten_reverse (api : String → Option String) (batches : List (List String))
    (k : String) :
    dictGet ((batches.map (_query_drugbank_names api)).reverse.flatten) k =
      if k ∈ batches.flatten then some (api k) else none := by
  induction batches with
  | nil => rfl
  | cons b bs ih =>
    rw [List.map_cons, List.reverse_cons, List.flatten_append, List.flatten_cons,
      List.flatten_nil, List.append_nil, dictGet_append, dictGet_query, ih, List.flatten_cons]
    by_cases hb : k ∈ b
    · simp [hb]
    · by_cases hbs : k ∈ bs.flatten
      · simp [hb, hbs]
      · simp [hb, hbs]

/-- Concatenating the batches gives back the identifier list (one fuel unit per
element suffices when the batch size is positive). -/
theorem makeBatchesGo_flatten (B : Nat) (hB : 1 ≤ B) :
    ∀ (fuel : Nat) (l : List String), l.length ≤ fuel →
      (makeBatchesGo fuel B l).flatten = l := by
  intro fuel
  induction fuel with
  | zero =>
    intro l h
    cases l with
    | nil => rfl
    | cons a l => simp at h
  | succ n ih =>
    intro l h
    cases l with
    | nil => rfl
    | cons a l =>
      have hstep : makeBatchesGo (n + 1) B (a :: l) =
          (a :: l).take B :: makeBatchesGo n B ((a :: l).drop B) := rfl
      have hlen : ((a :: l).drop B).length ≤ n := by
        rw [List.length_drop]
        simp only [List.length_cons] at h ⊢
        omega
      rw [hstep, List.flatten_cons, ih _ hlen, List.take_append_drop]

/-- Concatenating the batches of `makeBatches` gives back the identifier
list. -/
theorem makeBatches_flatten (B : Nat) (hB : 1 ≤ B) (l : List String) :
    (makeBatches B l).flatten = l :=
  makeBatchesGo_flatten B hB l.length l (Nat.le_refl _)

/-- Every batch produced by the fuelled worker has at most `B` elements. -/
theorem length_le_of_mem_makeBatchesGo (B : Nat) :
    ∀ (fuel : Nat) (l : List String) (b : List String),
      b ∈ makeBatchesGo fuel B l → b.length ≤ B := by
  intro fuel
  induction fuel with
  | zero =>
    intro l b hb
    cases l with
    | nil => simp [makeBatchesGo] at hb
    | cons a l => simp [makeBatchesGo] at hb
  | succ n ih =>
    intro l b hb
    cases l with
    | nil => simp [makeBatchesGo] at hb
    | cons a l =>
      rw [show makeBatchesGo (n + 1) B (a :: l) =
        (a :: l).take B :: makeBatchesGo n B ((a :: l).drop B) from rfl] at hb
      rcases List.mem_cons.mp hb with h | h
      · subst h
        rw [List.length_take]
        exact Nat.min_le_left _ _
      · exact ih _ _ h

/-- Every batch produced by `makeBatches` has at most `B` elements. -/
theorem length_le_of_mem_makeBatches (B : Nat) (l : List String) (b : List String)
    (hb : b ∈ makeBatches B l) : b.length ≤ B :=
  length_le_of_mem_makeBatchesGo B l.length l b hb

/-- Lookup in the dict returned by the batched query, for any positive batch
size: any identifier of the input list is mapped to the api's answer for it,
and no other key is present. -/
theorem dictGet_batch_query (api : String → Option String) (l : List String) (k : String)
    (B : Nat) (hB : 1 ≤ B) :
    dictGet (batch_query_drugbank_names api l (some B)) k =
      if k ∈ l then some (api k) else none := by
  by_cases h : l.length ≤ B
  · rw [show batch_query_drugbank_names api l (some B) = _query_drugbank_names api l by
      simp [batch_query_drugbank_names, h]]
    exact dictGet_query api l k
  · rw [show batch_query_drugbank_names api l (some B) =
        ((makeBatches B l).map (_query_drugbank_names api)).reverse.flatten by
      simp [batch_query_drugbank_names, h]]
    rw [dictGet_flatten_reverse, makeBatches_flatten B hB]

/-- Membership in the worker of `uniqueList`: the elements kept are those of the
input not already seen. -/
theorem mem_uniqueAux {α : Type} [DecidableEq α] (l : List α) :
    ∀ (seen : List α) (a : α), a ∈ uniqueAux seen l ↔ a ∈ l ∧ a ∉ seen := by
  induction l with
  | nil => intro seen a; simp [uniqueAux]
  | cons b l ih =>
    intro seen a
    by_cases hb : b ∈ seen
    · rw [show uniqueAux seen (b :: l) = uniqueAux seen l from if_pos hb, ih]
      constructor
      · rintro ⟨h1, h2⟩
        exact ⟨List.mem_cons_of_mem _ h1, h2⟩
      · rintro ⟨h1, h2⟩
        rcases List.mem_cons.mp h1 with e | h1
        · subst e; exact absurd hb h2
        · exact ⟨h1, h2⟩
    · rw [show uniqueAux seen (b :: l) = b :: uniqueAux (b :: seen) l from if_neg hb]
      constructor
      · intro h
        rcases List.mem_cons.mp h with e | h
        · subst e; exact ⟨List.mem_cons_self _ _, hb⟩
        · rw [ih] at h
          obtain ⟨h1, h2⟩ := h
          refine ⟨List.mem_cons_of_mem _ h1, fun hs => h2 (List.mem_cons_of_mem _ hs)⟩
      · rintro ⟨h1, h2⟩
        by_cases e : a = b
        · subst e; exact List.mem_cons_self _ _
        · rcases List.mem_cons.mp h1 with e' | h1
          · exact absurd e' e
          · refine List.mem_cons_of_mem _ ?_
            rw [ih]
            refine ⟨h1, fun hs => ?_⟩
            rcases List.mem_cons.mp hs with e' | hs
            · exact e e'
            · exact h2 hs

/-- Membership in `uniqueList`. -/
theorem mem_uniqueList {α : Type} [DecidableEq α] (l : List α) (a : α) :
    a ∈ uniqueList l ↔ a ∈ l := by
  rw [uniqueList, mem_uniqueAux]
  simp

/-- The worker of `uniqueList` commutes with mapping an injective function. -/
theorem uniqueAux_map {α β : Type} [DecidableEq α] [DecidableEq β] (f : α → β)
    (hf : Function.Injective f) (l : List α) :
    ∀ (seen : List α), uniqueAux (seen.map f) (l.map f) = (uniqueAux seen l).map f := by
  induction l with
  | nil => intro seen; rfl
  | cons a l ih =>
    intro seen
    rw [List.map_cons]
    by_cases ha : a ∈ seen
    · rw [show uniqueAux (seen.map f) (f a :: l.map f) = uniqueAux (seen.map f) (l.map f)
        from if_pos (List.mem_map_of_mem f ha)]
      rw [show uniqueAux seen (a :: l) = uniqueAux seen l from if_pos ha, ih]
    · have hfa : f a ∉ seen.map f := by
        intro hmem
        rcases List.mem_map.mp hmem with ⟨b, hb, he⟩
        exact ha (hf he ▸ hb)
      rw [show uniqueAux (seen.map f) (f a :: l.map f) =
          f a :: uniqueAux (f a :: seen.map f) (l.map f) from if_neg hfa]
      rw [show uniqueAux seen (a :: l) = a :: uniqueAux (a :: seen) l from if_neg ha]
      rw [List.map_cons, show f a :: seen.map f = (a :: seen).map f from rfl, ih]

/-- `uniqueList` commutes with mapping an injective function. -/
theorem uniqueList_map {α β : Type} [DecidableEq α] [DecidableEq β] (f : α → β)
    (hf : Function.Injective f) (l : List α) :
    uniqueList (l.map f) = (uniqueList l).map f :=
  uniqueAux_map f hf l []

/-- The number of distinct values is preserved by mapping an injective
function. -/
theorem length_uniqueList_map {α β : Type} [DecidableEq α] [DecidableEq β] (f : α → β)
    (hf : Function.Injective f) (l : List α) :
    (uniqueList (l.map f)).length = (uniqueList l).length := by
  rw [uniqueList_map f hf, List.length_map]

/-- The correction loop rewrites every row's `drug_name` to the api's answer for
the row's identifier: the membership test `row.drugbank_id in id_name_map`
always succeeds, because the map was built over the frame's own identifiers. -/
theorem correct_drug_names_eq (api : String → Option String) (df : List Row) :
    correct_drug_names api df = df.map (apiName api) := by
  simp only [correct_drug_names]
  apply List.map_congr_left
  intro r hr
  have hmem : r.drugbank_id ∈ uniqueList (df.map (fun r => r.drugbank_id)) := by
    rw [mem_uniqueList]
    exact List.mem_map_of_mem _ hr
  rw [dictGet_batch_query api _ _ 1000 (by omega), if_pos hmem]
  rfl

/-- Every row kept by the deduplication worker is a row of the input. -/
theorem mem_of_mem_dropDupAux (l : List Row) :
    ∀ (seen : List (Option String × String)) (r : Row), r ∈ dropDupAux seen l → r ∈ l := by
  induction l with
  | nil => intro seen r h; simp [dropDupAux] at h
  | cons s l ih =>
    intro seen r h
    by_cases hs : keyOf s ∈ seen
    · rw [show dropDupAux seen (s :: l) = dropDupAux seen l from if_pos hs] at h
      exact List.mem_cons_of_mem _ (ih seen r h)
    · rw [show dropDupAux seen (s :: l) = s :: dropDupAux (keyOf s :: seen) l from if_neg hs] at h
      rcases List.mem_cons.mp h with e | h
      · subst e; exact List.mem_cons_self _ _
      · exact List.mem_cons_of_mem _ (ih _ r h)

/-- A key has a representative in the output of the deduplication worker exactly
when it has one in the input and was not already seen. -/
theorem key_mem_dropDupAux (l : List Row) :
    ∀ (seen : List (Option String × String)) (k : Option String × String),
      (∃ r ∈ dropDupAux seen l, keyOf r = k) ↔ (∃ r ∈ l, keyOf r = k) ∧ k ∉ seen := by
  induction l with
  | nil => intro seen k; simp [dropDupAux]
  | cons s l ih =>
    intro seen k
    by_cases hs : keyOf s ∈ seen
    · rw [show dropDupAux seen (s :: l) = dropDupAux seen l from if_pos hs, ih]
      constructor
      · rintro ⟨⟨r, hr, he⟩, hk⟩
        exact ⟨⟨r, List.mem_cons_of_mem _ hr, he⟩, hk⟩
      · rintro ⟨⟨r, hr, he⟩, hk⟩
        rcases List.mem_cons.mp hr with e | hr
        · subst e
          exact absurd (he ▸ hs) hk
        · exact ⟨⟨r, hr, he⟩, hk⟩
    · rw [show dropDupAux seen (s :: l) = s :: dropDupAux (keyOf s :: seen) l from if_neg hs]
      constructor
      · rintro ⟨r, hr, he⟩
        rcases List.mem_cons.mp hr with e | hr
        · subst e
          exact ⟨⟨r, List.mem_cons_self _ _, he⟩, he ▸ hs⟩
        · rcases (ih _ k).mp ⟨r, hr, he⟩ with ⟨⟨r', hr', he'⟩, hk⟩
          refine ⟨⟨r', List.mem_cons_of_mem _ hr', he'⟩, fun hmem => hk (List.mem_cons_of_mem _ hmem)⟩
      · rintro ⟨⟨r, hr, he⟩, hk⟩
        by_cases hks : k = keyOf s
        · exact ⟨s, List.mem_cons_self _ _, hks.symm⟩
        · rcases List.mem_cons.mp hr with e | hr
          · subst e
            exact absurd he.symm hks
          · rcases (ih (keyOf s :: seen) k).mpr
              ⟨⟨r, hr, he⟩, fun hmem => by
                rcases List.mem_cons.mp hmem with e | hmem
                · exact hks e
                · exact hk hmem⟩ with ⟨r', hr', he'⟩
            exact ⟨r', List.mem_cons_of_mem _ hr', he'⟩

/-- The keys of the deduplicated rows are pairwise distinct and disjoint from
the seen set. -/
theorem nodup_key_dropDupAux (l : List Row) :
    ∀ (seen : List (Option String × String)),
      ((dropDupAux seen l).map keyOf).Nodup ∧ ∀ r ∈ dropDupAux seen l, keyOf r ∉ seen := by
  induction l with
  | nil => intro seen; constructor <;> simp [dropDupAux]
  | cons s l ih =>
    intro seen
    by_cases hs : keyOf s ∈ seen
    · rw [show dropDupAux seen (s :: l) = dropDupAux seen l from if_pos hs]
      exact ih seen
    · rw [show dropDupAux seen (s :: l) = s :: dropDupAux (keyOf s :: seen) l from if_neg hs]
      obtain ⟨hnd, hdisj⟩ := ih (keyOf s :: seen)
      constructor
      · rw [List.map_cons, List.nodup_cons]
        refine ⟨fun hmem => ?_, hnd⟩
        rcases List.mem_map.mp hmem with ⟨r, hr, he⟩
        exact hdisj r hr (he ▸ List.mem_cons_self _ _)
      · intro r hr
        rcases List.mem_cons.mp hr with e | hr
        · subst e; exact hs
        · exact fun hmem => hdisj r hr (List.mem_cons_of_mem _ hmem)

/-- The keys of the deduplicated rows are pairwise distinct. -/
theorem nodup_key_dropDuplicates (df : List Row) :
    ((dropDuplicates df).map keyOf).Nodup :=
  (nodup_key_dropDupAux df []).1

/-- The deduplicated rows are pairwise distinct. -/
theorem nodup_dropDuplicates (df : List Row) : (dropDuplicates df).Nodup :=
  List.Nodup.of_map keyOf (nodup_key_dropDuplicates df)

/-- Two deduplicated rows with the same key pair are the same row. -/
theorem dropDuplicates_inj (df : List Row) :
    ∀ r ∈ dropDuplicates df, ∀ s ∈ dropDuplicates df, keyOf r = keyOf s → r = s :=
  List.inj_on_of_nodup_map (nodup_key_dropDuplicates df)

/-- A key has a representative among the deduplicated rows exactly when it has
one among the input rows. -/
theorem key_mem_dropDuplicates (df : List Row) (k : Option String × String) :
    (∃ r ∈ dropDuplicates df, keyOf r = k) ↔ ∃ r ∈ df, keyOf r = k := by
  rw [dropDuplicates, key_mem_dropDupAux]
  simp

/-- `listMax?` is `none` exactly on the empty list. -/
theorem listMax?_eq_none (cs : List Nat) : listMax? cs = none ↔ cs = [] := by
  cases cs with
  | nil => simp [listMax?]
  | cons a l =>
    simp only [listMax?]
    cases listMax? l <;> simp

/-- The maximum of a list of naturals: it is `some m` exactly when `m` is a
member bounding every member. -/
theorem listMax?_eq_some_iff (cs : List Nat) (m : Nat) :
    listMax? cs = some m ↔ m ∈ cs ∧ ∀ c ∈ cs, c ≤ m := by
  induction cs generalizing m with
  | nil => simp [listMax?]
  | cons a l ih =>
    simp only [listMax?]
    cases h : listMax? l with
    | none =>
      have he : l = [] := (listMax?_eq_none l).mp h
      subst he
      constructor
      · intro hm
        have : a = m := by simpa using hm
        subst this
        exact ⟨List.mem_cons_self _ _, by simp⟩
      · rintro ⟨hm, hb⟩
        have : m = a := by simpa using hm
        subst this
        rfl
    | some b =>
      have hb := (ih b).mp h
      constructor
      · intro hm
        have he : max a b = m := by simpa using hm
        have ha' : a ≤ m := by
          have := Nat.le_max_left a b
          omega
        have hb' : b ≤ m := by
          have := Nat.le_max_right a b
          omega
        have hbound : ∀ c ∈ a :: l, c ≤ m := by
          intro c hc'
          rcases List.mem_cons.mp hc' with e | hc'
          · omega
          · have := hb.2 c hc'
            omega
        rcases max_choice a b with hc | hc
        · have : a = m := by omega
          subst this
          exact ⟨List.mem_cons_self _ _, hbound⟩
        · have : b = m := by omega
          subst this
          exact ⟨List.mem_cons_of_mem _ hb.1, hbound⟩
      · rintro ⟨hm, hbd⟩
        have h1 : a ≤ m := hbd a (List.mem_cons_self _ _)
        have h2 : b ≤ m := hbd b (List.mem_cons_of_mem _ hb.1)
        have h3 : m ≤ max a b := by
          rcases List.mem_cons.mp hm with e | hm
          · subst e; exact Nat.le_max_left _ _
          · have := hb.2 m hm
            have := Nat.le_max_right a b
            omega
        have : max a b = m := by omega
        simp [this]

/-- A list containing an element satisfying the predicate has a nonempty
filtering. -/
theorem one_le_length_filter {α : Type} (p : α → Bool) (l : List α) (a : α)
    (ha : a ∈ l) (hp : p a = true) : 1 ≤ (l.filter p).length :=
  List.length_pos_of_mem (List.mem_filter.mpr ⟨ha, hp⟩)

/-- A duplicate-free list all of whose members are equal has at most one
element. -/
theorem length_le_one_of_nodup {α : Type} (l : List α) (hnd : l.Nodup)
    (h : ∀ a ∈ l, ∀ b ∈ l, a = b) : l.length ≤ 1 := by
  cases l with
  | nil => simp
  | cons a l =>
    cases l with
    | nil => simp
    | cons b l =>
      exfalso
      have hab : a = b :=
        h a (List.mem_cons_self _ _) b (List.mem_cons_of_mem _ (List.mem_cons_self _ _))
      have hnmem : a ∉ b :: l := (List.nodup_cons.mp hnd).1
      exact hnmem (hab ▸ List.mem_cons_self _ _)

/-- A list containing two distinct elements has at least two elements. -/
theorem two_le_length_of_mem {α : Type} (l : List α) (a b : α) (ha : a ∈ l) (hb : b ∈ l)
    (hab : a ≠ b) : 2 ≤ l.length := by
  induction l with
  | nil => simp at ha
  | cons x l ih =>
    rcases List.mem_cons.mp ha with e | ha'
    · subst e
      rcases List.mem_cons.mp hb with e' | hb'
      · exact absurd e'.symm hab
      · have := List.length_pos_of_mem hb'
        simp only [List.length_cons]
        omega
    · have := List.length_pos_of_mem ha'
      simp only [List.length_cons]
      omega

/-- Every row of the deduplication of the corrected frame carries the api's
answer for its own identifier as its drug name. -/
theorem drug_name_of_mem_dropDup (api : String → Option String) (df : List Row) :
    ∀ r ∈ dropDuplicates (df.map (apiName api)), r.drug_name = api r.drugbank_id := by
  intro r hr
  have hrg : r ∈ df.map (apiName api) := mem_of_mem_dropDupAux _ _ _ hr
  rcases List.mem_map.mp hrg with ⟨r₀, _, he⟩
  subst he
  rfl

/-- An identifier has a representative row in the deduplication of the corrected
frame exactly when some input row carries it. -/
theorem id_mem_dropDup_iff (api : String → Option String) (df : List Row) (i : String) :
    (∃ r ∈ dropDuplicates (df.map (apiName api)), r.drugbank_id = i) ↔
      ∃ r₀ ∈ df, r₀.drugbank_id = i := by
  constructor
  · rintro ⟨r, hr, he⟩
    have hrg : r ∈ df.map (apiName api) := mem_of_mem_dropDupAux _ _ _ hr
    rcases List.mem_map.mp hrg with ⟨r₀, hr₀, he'⟩
    exact ⟨r₀, hr₀, by rw [← he, ← he']; rfl⟩
  · rintro ⟨r₀, hr₀, he⟩
    have hkey : ∃ r ∈ df.map (apiName api), keyOf r = (api i, i) := by
      refine ⟨apiName api r₀, List.mem_map_of_mem _ hr₀, ?_⟩
      rw [keyOf]
      subst he
      rfl
    rcases (key_mem_dropDuplicates _ _).mpr hkey with ⟨r, hr, he'⟩
    exact ⟨r, hr, congrArg Prod.snd he'⟩

/-- Characterisation of the assertion's predicate on the corrected frame: after
every row's `drug_name` has been overwritten with the api's answer for its
identifier, `is_one_to_one` holds exactly when at least one identifier of the
frame resolves to a name, and no two rows with distinct identifiers resolve to
the same name. -/
theorem is_one_to_one_map_apiName (api : String → Option String) (df : List Row) :
    is_one_to_one (df.map (apiName api)) = true ↔
      ((∃ r ∈ df, (api r.drugbank_id).isSome = true) ∧
        ∀ r ∈ df, ∀ s ∈ df, api r.drugbank_id = api s.drugbank_id →
          (api r.drugbank_id).isSome = true → r.drugbank_id = s.drugbank_id) := by
  have hname := drug_name_of_mem_dropDup api df
  have hinj := dropDuplicates_inj (df.map (apiName api))
  have hnd := nodup_dropDuplicates (df.map (apiName api))
  have hid := id_mem_dropDup_iff api df
  simp only [is_one_to_one, Bool.and_eq_true, decide_eq_true_eq]
  set d := dropDuplicates (df.map (apiName api)) with hd
  have hcntSur : ∀ i ∈ uniqueList (d.map fun r => r.drugbank_id),
      ((d.filter fun r => decide (r.drugbank_id = i ∧ r.drug_name.isSome = true)).length) =
        if (api i).isSome then 1 else 0 := by
    intro i hi
    have hi' : i ∈ d.map fun r => r.drugbank_id := (mem_uniqueList _ _).mp hi
    rcases List.mem_map.mp hi' with ⟨r', hr', hr'i⟩
    by_cases hs : (api i).isSome = true
    · rw [if_pos hs]
      have hfc : (d.filter fun r => decide (r.drugbank_id = i ∧ r.drug_name.isSome = true)) =
          d.filter fun r => decide (r.drugbank_id = i) := by
        apply List.filter_congr
        intro r hr
        by_cases hri : r.drugbank_id = i
        · simp [hri, hname r hr, hs]
        · simp [hri]
      rw [hfc]
      have h1 : 1 ≤ (d.filter fun r => decide (r.drugbank_id = i)).length :=
        one_le_length_filter _ _ r' hr' (by simp [hr'i])
      have h2 : (d.filter fun r => decide (r.drugbank_id = i)).length ≤ 1 := by
        apply length_le_one_of_nodup _ (hnd.filter _)
        intro a ha b hb
        have ha' := List.mem_filter.mp ha
        have hb' := List.mem_filter.mp hb
        have hai : a.drugbank_id = i := by simpa using ha'.2
        have hbi : b.drugbank_id = i := by simpa using hb'.2
        apply hinj a ha'.1 b hb'.1
        rw [keyOf, keyOf, hname a ha'.1, hname b hb'.1, hai, hbi]
      omega
    · rw [if_neg hs]
      have hnil : (d.filter fun r => decide (r.drugbank_id = i ∧ r.drug_name.isSome = true)) = [] := by
        rw [List.filter_eq_nil_iff]
        intro r hr
        simp only [decide_eq_true_eq, not_and]
        intro hri hsome
        rw [hname r hr, hri] at hsome
        exact hs hsome
      rw [hnil]
      rfl
  have hsurIff : (listMax? ((uniqueList (d.map fun r => r.drugbank_id)).map fun i =>
        (d.filter fun r => decide (r.drugbank_id = i ∧ r.drug_name.isSome = true)).length) =
          some 1) ↔
      (∃ r ∈ df, (api r.drugbank_id).isSome = true) := by
    rw [listMax?_eq_some_iff]
    constructor
    · rintro ⟨h1, _⟩
      rcases List.mem_map.mp h1 with ⟨i, hi, hcnt_i⟩
      rw [hcntSur i hi] at hcnt_i
      by_cases hs : (api i).isSome = true
      · have hi' : i ∈ d.map fun r => r.drugbank_id := (mem_uniqueList _ _).mp hi
        rcases List.mem_map.mp hi' with ⟨r', hr', hid'⟩
        rcases (hid i).mp ⟨r', hr', hid'⟩ with ⟨r₀, hr₀, he⟩
        exact ⟨r₀, hr₀, by rw [he]; exact hs⟩
      · rw [if_neg hs] at hcnt_i
        omega
    · rintro ⟨r₀, hr₀, hs⟩
      rcases (hid r₀.drugbank_id).mpr ⟨r₀, hr₀, rfl⟩ with ⟨r', hr', he⟩
      have hkey : r₀.drugbank_id ∈ uniqueList (d.map fun r => r.drugbank_id) := by
        rw [mem_uniqueList]
        exact List.mem_map.mpr ⟨r', hr', he⟩
      refine ⟨List.mem_map.mpr ⟨r₀.drugbank_id, hkey, ?_⟩, ?_⟩
      · rw [hcntSur _ hkey, if_pos hs]
      · intro c hc
        rcases List.mem_map.mp hc with ⟨j, hj, he'⟩
        rw [hcntSur j hj] at he'
        by_cases hsj : (api j).isSome = true
        · rw [if_pos hsj] at he'
          omega
        · rw [if_neg hsj] at he'
          omega
  have hU'U : (∀ r ∈ d, ∀ s ∈ d, r.drug_name = s.drug_name → r.drug_name.isSome = true → r = s) ↔
      (∀ r ∈ df, ∀ s ∈ df, api r.drugbank_id = api s.drugbank_id →
        (api r.drugbank_id).isSome = true → r.drugbank_id = s.drugbank_id) := by
    constructor
    · intro hU' r hr s hs heq hsome
      rcases (hid r.drugbank_id).mpr ⟨r, hr, rfl⟩ with ⟨r', hr', hri⟩
      rcases (hid s.drugbank_id).mpr ⟨s, hs, rfl⟩ with ⟨s', hs', hsi⟩
      have h1 : r'.drug_name = s'.drug_name := by
        rw [hname r' hr', hname s' hs', hri, hsi, heq]
      have h2 : r'.drug_name.isSome = true := by
        rw [hname r' hr', hri]
        exact hsome
      have h3 := hU' r' hr' s' hs' h1 h2
      rw [← hri, ← hsi, h3]
    · intro hU r hr s hs heq hsome
      have h1 : api r.drugbank_id = api s.drugbank_id := by
        rw [← hname r hr, ← hname s hs, heq]
      rcases (hid r.drugbank_id).mp ⟨r, hr, rfl⟩ with ⟨r₀, hr₀, hr₀i⟩
      rcases (hid s.drugbank_id).mp ⟨s, hs, rfl⟩ with ⟨s₀, hs₀, hs₀i⟩
      have h2 : api r₀.drugbank_id = api s₀.drugbank_id := by
        rw [hr₀i, hs₀i]
        exact h1
      have h3 : (api r₀.drugbank_id).isSome = true := by
        rw [hr₀i, ← hname r hr]
        exact hsome
      have h4 : r₀.drugbank_id = s₀.drugbank_id := hU r₀ hr₀ s₀ hs₀ h2 h3
      have h5 : r.drugbank_id = s.drugbank_id := by
        rw [← hr₀i, ← hs₀i, h4]
      apply hinj r hr s hs
      rw [keyOf, keyOf, heq, h5]
  have hkeyInj : ∀ n : String, n ∈ uniqueList (d.filterMap fun r => r.drug_name) ↔
      ∃ r ∈ d, r.drug_name = some n := by
    intro n
    rw [mem_uniqueList]
    exact List.mem_filterMap
  have hinjIff : (listMax? ((uniqueList (d.filterMap fun r => r.drug_name)).map fun n =>
        (d.filter fun r => decide (r.drug_name = some n)).length) = some 1) ↔
      ((∃ r ∈ df, (api r.drugbank_id).isSome = true) ∧
        (∀ r ∈ d, ∀ s ∈ d, r.drug_name = s.drug_name → r.drug_name.isSome = true → r = s)) := by
    rw [listMax?_eq_some_iff]
    constructor
    · rintro ⟨h1, hb⟩
      constructor
      · rcases List.mem_map.mp h1 with ⟨n, hn, _⟩
        rcases (hkeyInj n).mp hn with ⟨r, hr, hrn⟩
        have hsome : (api r.drugbank_id).isSome = true := by
          rw [← hname r hr, hrn]
          rfl
        rcases (hid r.drugbank_id).mp ⟨r, hr, rfl⟩ with ⟨r₀, hr₀, h₀⟩
        exact ⟨r₀, hr₀, by rw [h₀]; exact hsome⟩
      · intro r hr s hs heq hsome
        rcases Option.isSome_iff_exists.mp hsome with ⟨n, hn⟩
        by_contra hne
        have hn' : n ∈ uniqueList (d.filterMap fun r => r.drug_name) :=
          (hkeyInj n).mpr ⟨r, hr, hn⟩
        have hle := hb _ (List.mem_map.mpr ⟨n, hn', rfl⟩)
        have h2 : 2 ≤ (d.filter fun x => decide (x.drug_name = some n)).length := by
          apply two_le_length_of_mem _ r s _ _ hne
          · exact List.mem_filter.mpr ⟨hr, by simp [hn]⟩
          · exact List.mem_filter.mpr ⟨hs, by simp [← heq, hn]⟩
        omega
    · rintro ⟨hE, hU'⟩
      have hb : ∀ c ∈ (uniqueList (d.filterMap fun r => r.drug_name)).map fun n =>
          (d.filter fun r => decide (r.drug_name = some n)).length, c ≤ 1 := by
        intro c hc
        rcases List.mem_map.mp hc with ⟨n, hn, he⟩
        rw [← he]
        apply length_le_one_of_nodup _ (hnd.filter _)
        intro a ha b hb'
        have ha' := List.mem_filter.mp ha
        have hb'' := List.mem_filter.mp hb'
        have han : a.drug_name = some n := by simpa using ha'.2
        have hbn : b.drug_name = some n := by simpa using hb''.2
        exact hU' a ha'.1 b hb''.1 (han.trans hbn.symm) (by rw [han]; rfl)
      refine ⟨?_, hb⟩
      rcases hE with ⟨r₀, hr₀, hs⟩
      rcases (hid r₀.drugbank_id).mpr ⟨r₀, hr₀, rfl⟩ with ⟨r', hr', hri⟩
      rcases Option.isSome_iff_exists.mp hs with ⟨n, hn⟩
      have hrn : r'.drug_name = some n := by
        rw [hname r' hr', hri, hn]
      have hn' : n ∈ uniqueList (d.filterMap fun r => r.drug_name) :=
        (hkeyInj n).mpr ⟨r', hr', hrn⟩
      refine List.mem_map.mpr ⟨n, hn', ?_⟩
      have h1 : 1 ≤ (d.filter fun x => decide (x.drug_name = some n)).length :=
        one_le_length_filter _ _ r' hr' (by simp [hrn])
      have h2 := hb _ (List.mem_map.mpr ⟨n, hn', rfl⟩)
      omega
  constructor
  · rintro ⟨hi, hs⟩
    exact ⟨hsurIff.mp hs, hU'U.mp (hinjIff.mp hi).2⟩
  · rintro ⟨hE, hU⟩
    exact ⟨hinjIff.mpr ⟨hE, hU'U.mpr hU⟩, hsurIff.mpr hE⟩

/-- `revise_drugbank_name`, rewritten through the closed form of the correction
loop. -/
theorem revise_eq (api : String → Option String) (df : List Row) :
    revise_drugbank_name api df =
      if is_one_to_one (df.map (apiName api)) then some (df.map (apiName api)) else none := by
  simp only [revise_drugbank_name, correct_drug_names_eq]

/-- When `revise_drugbank_name` returns a frame, it is the corrected frame and
the assertion's predicate held of it. -/
theorem revise_some_eq (api : String → Option String) (df df' : List Row)
    (h : revise_drugbank_name api df = some df') :
    df' = df.map (apiName api) ∧ is_one_to_one (df.map (apiName api)) = true := by
  rw [revise_eq] at h
  by_cases hc : is_one_to_one (df.map (apiName api)) = true
  · rw [if_pos hc] at h
    exact ⟨(Option.some.inj h).symm, hc⟩
  · rw [if_neg hc] at h
    exact absurd h (by simp)

/-- Inserting into the sorted key list adds one element. -/
theorem length_insertSorted (a : String × String) (l : List (String × String)) :
    (insertSorted a l).length = l.length + 1 := by
  induction l with
  | nil => rfl
  | cons b l ih =>
    rw [show insertSorted a (b :: l) =
      if keyLe a b then a :: b :: l else b :: insertSorted a l from rfl]
    split
    · rfl
    · rw [List.length_cons, ih]
      rfl

/-- Sorting the key list preserves its length. -/
theorem length_sortKeys (l : List (String × String)) : (sortKeys l).length = l.length := by
  induction l with
  | nil => rfl
  | cons a l ih =>
    rw [show sortKeys (a :: l) = insertSorted a (sortKeys l) from rfl,
      length_insertSorted, ih]
    rfl

/-- Membership in an insertion into the sorted key list. -/
theorem mem_insertSorted (a : String × String) (l : List (String × String))
    (b : String × String) : b ∈ insertSorted a l ↔ b = a ∨ b ∈ l := by
  induction l with
  | nil => simp [insertSorted]
  | cons c l ih =>
    rw [show insertSorted a (c :: l) =
      if keyLe a c then a :: c :: l else c :: insertSorted a l from rfl]
    split
    · simp [List.mem_cons]
    · simp only [List.mem_cons, ih]
      tauto

/-- Sorting the key list preserves membership. -/
theorem mem_sortKeys (l : List (String × String)) (b : String × String) :
    b ∈ sortKeys l ↔ b ∈ l := by
  induction l with
  | nil => simp [sortKeys]
  | cons a l ih =>
    rw [show sortKeys (a :: l) = insertSorted a (sortKeys l) from rfl,
      mem_insertSorted]
    simp only [List.mem_cons, ih]

/-- The fuelled replacement satisfies the claim's description whenever the fuel
covers the length of the input. -/
theorem replaceNl4Go_spec : ∀ (fuel : Nat) (l : List Char), l.length ≤ fuel →
    ReplacedNl4 l (replaceNl4Go fuel l) := by
  intro fuel
  induction fuel with
  | zero =>
    intro l h
    cases l with
    | nil => exact ReplacedNl4.nil
    | cons c cs => simp at h
  | succ n ih =>
    intro l h
    cases l with
    | nil => exact ReplacedNl4.nil
    | cons c cs =>
      rw [show replaceNl4Go (n + 1) (c :: cs) =
        if nl4.isPrefixOf (c :: cs) then ' ' :: replaceNl4Go n (cs.drop 4)
        else c :: replaceNl4Go n cs from rfl]
      by_cases hp : nl4.isPrefixOf (c :: cs) = true
      · rw [if_pos hp]
        have hpre : nl4 <+: (c :: cs) := List.isPrefixOf_iff_prefix.mp hp
        rcases hpre with ⟨t, ht⟩
        rw [nl4] at ht
        injection ht with h1 h2
        subst h1
        have hdrop : cs.drop 4 = t := by
          rw [← h2]
          rfl
        have hlen : t.length ≤ n := by
          have : cs.length = t.length + 4 := by
            rw [← h2]
            simp
          simp only [List.length_cons] at h
          omega
        rw [hdrop]
        have hshape : (('\n' : Char) :: cs) = nl4 ++ t := by
          rw [nl4, ← h2]
          rfl
        rw [hshape]
        exact ReplacedNl4.hit t _ (ih t hlen)
      · rw [if_neg hp]
        have hcs : cs.length ≤ n := by
          simp only [List.length_cons] at h
          omega
        exact ReplacedNl4.keep c cs _ (Bool.eq_false_iff.mpr hp) (ih cs hcs)

/-- The `groupby` keys of the corrected frame, written over the input frame. -/
theorem groupbyKeys_map_apiName (api : String → Option String) (df : List Row) :
    groupbyKeys (df.map (apiName api)) =
      sortKeys (uniqueList (df.filterMap fun r =>
        (api r.drugbank_id).map fun n => (r.drugbank_id, n))) := by
  rw [groupbyKeys, List.filterMap_map]
  rfl

/-- The resolved `(identifier, name)` pairs of the corrected frame are the
resolved identifiers paired with their (defaulted) looked-up names. -/
theorem pairs_eq_map_resolved (api : String → Option String) (df : List Row) :
    (df.filterMap fun r => (api r.drugbank_id).map fun n => (r.drugbank_id, n)) =
      (resolvedIds api df).map fun i => (i, (api i).getD "") := by
  rw [resolvedIds, List.map_filterMap]
  induction df with
  | nil => rfl
  | cons r l ih =>
    rw [List.filterMap_cons, List.filterMap_cons]
    cases hapi : api r.drugbank_id with
    | none => simpa [hapi] using ih
    | some n => simp [hapi, ih]

/-- Claim C1: in the dataframe returned by `revise_drugbank_name`, every row
whose `drugbank_id` was resolved to a name by the lookup
(`batch_query_drugbank_names` over the unique identifiers) has its `drug_name`
equal to that resolved name. -/
theorem claim_C1 (api : String → Option String) (df df' : List Row)
    (h : revise_drugbank_name api df = some df') (j : Nat) (r r' : Row) (n : String)
    (hr : df[j]? = some r) (hr' : df'[j]? = some r')
    (hlook : dictGet (batch_query_drugbank_names api
        (uniqueList (df.map fun x => x.drugbank_id)) (some 1000)) r.drugbank_id =
      some (some n)) :
    r'.drug_name = some n := by
  have hd := (revise_some_eq api df df' h).1
  subst hd
  rw [List.getElem?_map, hr, Option.map_some'] at hr'
  have he : apiName api r = r' := Option.some.inj hr'
  have hrdf : r ∈ df := List.getElem?_mem hr
  have hmem : r.drugbank_id ∈ uniqueList (df.map fun x => x.drugbank_id) :=
    (mem_uniqueList _ _).mpr (List.mem_map_of_mem _ hrdf)
  rw [dictGet_batch_query api _ _ 1000 (by omega), if_pos hmem] at hlook
  have hn : api r.drugbank_id = some n := Option.some.inj hlook
  rw [← he]
  exact hn

/-- Witness for claim C1 at a concrete input: the single row's identifier
resolves to "alpha" and the returned frame carries that name. -/
theorem claim_C1_witness :
    revise_drugbank_name (fun s => if s = "DB1" then some "alpha" else none)
        [mkRow (some "x") "DB1" "i1"] = some [mkRow (some "alpha") "DB1" "i1"] ∧
    (mkRow (some "alpha") "DB1" "i1").drug_name = some "alpha" :=
  ⟨by decide,
    claim_C1 (fun s => if s = "DB1" then some "alpha" else none)
      [mkRow (some "x") "DB1" "i1"] [mkRow (some "alpha") "DB1" "i1"] (by decide) 0
      (mkRow (some "x") "DB1" "i1") (mkRow (some "alpha") "DB1" "i1") "alpha" (by decide)
      (by decide) (by decide)⟩

/-- Claim C2: with the API modelled as a fixed function, the batched query
returns the same identifier-to-name mapping (same keys, same values at every
key) as the single unbatched call, for every batch size of at least one. -/
theorem claim_C2 (api : String → Option String) (ids : List String) (B : Nat)
    (hB : 1 ≤ B) (k : String) :
    dictGet (batch_query_drugbank_names api ids (some B)) k =
      dictGet (_query_drugbank_names api ids) k := by
  rw [dictGet_batch_query api ids k B hB, dictGet_query]

/-- Witness for claim C2 at a concrete input with batch size 1 (so that the
list is genuinely split). -/
theorem claim_C2_witness :
    1 ≤ 1 ∧
    dictGet (batch_query_drugbank_names (fun _ => none) ["DB1", "DB2"] (some 1)) "DB2" =
      dictGet (_query_drugbank_names (fun _ => none) ["DB1", "DB2"]) "DB2" :=
  ⟨by decide, claim_C2 (fun _ => none) ["DB1", "DB2"] 1 (by decide) "DB2"⟩

/-- Claim C3 is refuted by this evaluation: the first row's identifier is
reported not found by the lookup, yet the returned frame holds `none` (Python
`None`) in its `drug_name` cell instead of the original value `some "aspirin"`:
the dict built by `_query_drugbank_names` contains not-found identifiers with
value `None`, so the membership test of the correction loop succeeds and
overwrites the original name. -/
theorem claim_C3_eval :
    (revise_drugbank_name (fun s => if s = "DB1" then some "alpha" else none)
        [mkRow (some "aspirin") "DB12430" "i1", mkRow (some "x") "DB1" "i2"]).map
      (fun l => l.map fun r => r.drug_name) = some [none, some "alpha"] := by
  decide

/-- Claim C4 is refuted at this input: with a single row whose identifier does
not resolve, the corrected rows form a (vacuously) one-to-one association
between `drug_name` and `drugbank_id`, yet the assertion fails. -/
theorem claim_C4_counterexample :
    revise_drugbank_name (fun _ => none) [mkRow (some "x") "DB1" "i1"] = none ∧
    ∀ r ∈ correct_drug_names (fun _ => none) [mkRow (some "x") "DB1" "i1"],
      ∀ s ∈ correct_drug_names (fun _ => none) [mkRow (some "x") "DB1" "i1"],
        (r.drug_name = s.drug_name ↔ r.drugbank_id = s.drugbank_id) := by
  constructor
  · decide
  · decide

/-- Claim C4 (amended): `revise_drugbank_name` raises its assertion failure if
and only if either no row's identifier resolves to a name, or two rows with
distinct identifiers resolve to the same name; otherwise it returns the
corrected dataframe normally. -/
theorem claim_C4 (api : String → Option String) (df : List Row) :
    (revise_drugbank_name api df = none ↔
      ¬ ((∃ r ∈ df, (api r.drugbank_id).isSome = true) ∧
        ∀ r ∈ df, ∀ s ∈ df, api r.drugbank_id = api s.drugbank_id →
          (api r.drugbank_id).isSome = true → r.drugbank_id = s.drugbank_id)) ∧
    ∀ df', revise_drugbank_name api df = some df' → df' = correct_drug_names api df := by
  constructor
  · rw [revise_eq]
    by_cases h : is_one_to_one (df.map (apiName api)) = true
    · rw [if_pos h]
      constructor
      · intro habs
        exact absurd habs (by simp)
      · intro hneg
        exact absurd ((is_one_to_one_map_apiName api df).mp h) hneg
    · rw [if_neg h]
      constructor
      · intro _ hEU
        exact h ((is_one_to_one_map_apiName api df).mpr hEU)
      · intro _
        rfl
  · intro df' hdf
    rw [(revise_some_eq api df df' hdf).1, correct_drug_names_eq]

/-- Witness for claim C4's second conjunct at a concrete input. -/
theorem claim_C4_witness :
    revise_drugbank_name (fun s => if s = "DB1" then some "alpha" else none)
        [mkRow (some "x") "DB1" "i1"] = some [mkRow (some "alpha") "DB1" "i1"] ∧
    [mkRow (some "alpha") "DB1" "i1"] =
      correct_drug_names (fun s => if s = "DB1" then some "alpha" else none)
        [mkRow (some "x") "DB1" "i1"] :=
  ⟨by decide,
    (claim_C4 (fun s => if s = "DB1" then some "alpha" else none)
      [mkRow (some "x") "DB1" "i1"]).2 [mkRow (some "alpha") "DB1" "i1"] (by decide)⟩

/-- Claim C5 is refuted at this input: both rows' identifiers are distinct (two
distinct `drugbank_id` values) and the assertion passes, but only one document
is produced, because the second row's name lookup fails, its `drug_name` becomes
null, and `groupby` drops groups with a null key component. -/
theorem claim_C5_counterexample :
    (load_data (fun s => if s = "DB1" then some "alpha" else none)
        [mkRow (some "x") "DB1" "i1", mkRow (some "y") "DB2" "i2"]).map List.length =
      some 1 ∧
    (uniqueList ([mkRow (some "x") "DB1" "i1", mkRow (some "y") "DB2" "i2"].map
      fun r => r.drugbank_id)).length = 2 := by
  constructor
  · decide
  · decide

/-- Claim C5 (amended): whenever `load_data` yields documents, it yields exactly
one document per distinct `drugbank_id` that resolved to a name, and each
document's indication list length equals the number of input rows carrying that
document's identifier. -/
theorem claim_C5 (api : String → Option String) (df : List Row)
    (docs : List RepoDBDocDict) (h : load_data api df = some docs) :
    docs.length = (uniqueList (resolvedIds api df)).length ∧
    ∀ doc ∈ docs, doc.repodb.indications.length =
      (df.filter fun r => decide (r.drugbank_id = doc._id)).length := by
  cases hrev : revise_drugbank_name api df with
  | none =>
    simp only [load_data, hrev] at h
    exact Option.noConfusion h
  | some df' =>
    have hdf' : df' = df.map (apiName api) := (revise_some_eq api df df' hrev).1
    subst hdf'
    simp only [load_data, hrev] at h
    injection h with h
    subst h
    have hfinj : Function.Injective fun i : String => (i, (api i).getD "") :=
      fun a b hab => congrArg Prod.fst hab
    constructor
    · rw [List.length_map, groupbyKeys_map_apiName, length_sortKeys, pairs_eq_map_resolved]
      exact length_uniqueList_map _ hfinj _
    · intro doc hdoc
      rcases List.mem_map.mp hdoc with ⟨key, hkey, he⟩
      obtain ⟨i, n⟩ := key
      subst he
      rw [groupbyKeys] at hkey
      have hkey' : (i, n) ∈ (df.map (apiName api)).filterMap fun r =>
          r.drug_name.map fun n => (r.drugbank_id, n) :=
        (mem_uniqueList _ _).mp ((mem_sortKeys _ _).mp hkey)
      rcases List.mem_filterMap.mp hkey' with ⟨r, hr, hre⟩
      rcases List.mem_map.mp hr with ⟨r₀, hr₀, hr0e⟩
      subst hr0e
      rcases Option.map_eq_some'.mp hre with ⟨m, hm, hme⟩
      have hieq : r₀.drugbank_id = i := congrArg Prod.fst hme
      have hneq : m = n := congrArg Prod.snd hme
      have hapi : api i = some n := by
        rw [← hieq, ← hneq]
        exact hm
      show (((df.map (apiName api)).filter fun r =>
          decide (r.drugbank_id = i ∧ r.drug_name = some n)).map IndicationEntry.ofRow).length =
        (df.filter fun r => decide (r.drugbank_id = i)).length
      rw [List.length_map, List.filter_map, List.length_map]
      apply congrArg List.length
      apply List.filter_congr
      intro r hr
      by_cases hri : r.drugbank_id = i
      · simp [Function.comp, apiName, hri, hapi]
      · simp [Function.comp, apiName, hri]

/-- Witness for claim C5 at a concrete input: two resolving identifiers, one of
them covering two rows. -/
theorem claim_C5_witness :
    load_data (fun s => if s = "DB1" then some "alpha" else
        if s = "DB2" then some "beta" else none)
        [mkRow (some "x") "DB1" "i1", mkRow (some "y") "DB1" "i2",
          mkRow (some "z") "DB2" "i3"] =
      some [⟨"DB1", ⟨"DB1", "alpha",
              [⟨"i1", "C0000001", "NA", "Approved", "NA", "NA"⟩,
                ⟨"i2", "C0000001", "NA", "Approved", "NA", "NA"⟩]⟩⟩,
            ⟨"DB2", ⟨"DB2", "beta",
              [⟨"i3", "C0000001", "NA", "Approved", "NA", "NA"⟩]⟩⟩] ∧
    ([⟨"DB1", ⟨"DB1", "alpha",
        [⟨"i1", "C0000001", "NA", "Approved", "NA", "NA"⟩,
          ⟨"i2", "C0000001", "NA", "Approved", "NA", "NA"⟩]⟩⟩,
      ⟨"DB2", ⟨"DB2", "beta",
        [⟨"i3", "C0000001", "NA", "Approved", "NA", "NA"⟩]⟩⟩] :
        List RepoDBDocDict).length =
      (uniqueList (resolvedIds (fun s => if s = "DB1" then some "alpha" else
        if s = "DB2" then some "beta" else none)
        [mkRow (some "x") "DB1" "i1", mkRow (some "y") "DB1" "i2",
          mkRow (some "z") "DB2" "i3"])).length :=
  ⟨by decide,
    (claim_C5 (fun s => if s = "DB1" then some "alpha" else
        if s = "DB2" then some "beta" else none)
      [mkRow (some "x") "DB1" "i1", mkRow (some "y") "DB1" "i2",
        mkRow (some "z") "DB2" "i3"] _ (by decide)).1⟩

/-- Claim C6: every document yielded by `load_data` has its `"_id"` field equal
to the `"drugbank"` field nested under `"repodb"`, and both equal the
`drugbank_id` of the drug entry the document was built from. -/
theorem claim_C6 (api : String → Option String) (df : List Row)
    (docs : List RepoDBDocDict) (doc : RepoDBDocDict)
    (h : load_data api df = some docs) (hdoc : doc ∈ docs) :
    doc._id = doc.repodb.drugbank ∧
    ∃ d : RepoDBDoc, doc = d.to_dict ∧ doc._id = d.drug.id := by
  cases hrev : revise_drugbank_name api df with
  | none =>
    simp only [load_data, hrev] at h
    exact Option.noConfusion h
  | some df' =>
    simp only [load_data, hrev] at h
    injection h with h
    subst h
    rcases List.mem_map.mp hdoc with ⟨key, hkey, he⟩
    subst he
    exact ⟨rfl, ⟨RepoDBDoc.mk { id := key.1, name := key.2 }
      ((df'.filter fun r =>
        decide (r.drugbank_id = key.1 ∧ r.drug_name = some key.2)).map
        IndicationEntry.ofRow), rfl, rfl⟩⟩

/-- Witness for claim C6 at a concrete input. -/
theorem claim_C6_witness :
    load_data (fun s => if s = "DB1" then some "alpha" else none)
        [mkRow (some "x") "DB1" "i1"] =
      some [⟨"DB1", ⟨"DB1", "alpha", [⟨"i1", "C0000001", "NA", "Approved", "NA", "NA"⟩]⟩⟩] ∧
    (⟨"DB1", ⟨"DB1", "alpha", [⟨"i1", "C0000001", "NA", "Approved", "NA", "NA"⟩]⟩⟩ :
      RepoDBDocDict)._id =
      (⟨"DB1", ⟨"DB1", "alpha", [⟨"i1", "C0000001", "NA", "Approved", "NA", "NA"⟩]⟩⟩ :
        RepoDBDocDict).repodb.drugbank :=
  ⟨by decide,
    (claim_C6 (fun s => if s = "DB1" then some "alpha" else none)
      [mkRow (some "x") "DB1" "i1"]
      [⟨"DB1", ⟨"DB1", "alpha", [⟨"i1", "C0000001", "NA", "Approved", "NA", "NA"⟩]⟩⟩]
      ⟨"DB1", ⟨"DB1", "alpha", [⟨"i1", "C0000001", "NA", "Approved", "NA", "NA"⟩]⟩⟩
      (by decide) (by decide)).1⟩

/-- Claim C7: `revise_drugbank_name` changes only the `drug_name` column: every
other column of every row is unchanged (row for row), in particular the
`drugbank_id` column and hence the distinct identifiers and their count. -/
theorem claim_C7 (api : String → Option String) (df df' : List Row)
    (h : revise_drugbank_name api df = some df') :
    df'.map stripName = df.map stripName ∧
    (df'.map fun r => r.drugbank_id) = (df.map fun r => r.drugbank_id) ∧
    uniqueList (df'.map fun r => r.drugbank_id) =
      uniqueList (df.map fun r => r.drugbank_id) ∧
    (uniqueList (df'.map fun r => r.drugbank_id)).length =
      (uniqueList (df.map fun r => r.drugbank_id)).length := by
  have hd := (revise_some_eq api df df' h).1
  subst hd
  have hids : ((df.map (apiName api)).map fun r => r.drugbank_id) =
      df.map fun r => r.drugbank_id := by
    rw [List.map_map]
    rfl
  refine ⟨?_, hids, by rw [hids], by rw [hids]⟩
  rw [List.map_map]
  rfl

/-- Witness for claim C7 at a concrete input. -/
theorem claim_C7_witness :
    revise_drugbank_name (fun s => if s = "DB1" then some "alpha" else none)
        [mkRow (some "x") "DB1" "i1"] = some [mkRow (some "alpha") "DB1" "i1"] ∧
    [mkRow (some "alpha") "DB1" "i1"].map stripName =
      [mkRow (some "x") "DB1" "i1"].map stripName :=
  ⟨by decide,
    (claim_C7 (fun s => if s = "DB1" then some "alpha" else none)
      [mkRow (some "x") "DB1" "i1"] [mkRow (some "alpha") "DB1" "i1"] (by decide)).1⟩

/-- Claim C8: with the default batch size of 1000, the batched query is the
merge of one POST per batch in order, every batch passed to the POST helper has
at most 1000 identifiers, and the concatenation of the batches in order is the
input list. -/
theorem claim_C8 (api : String → Option String) (ids : List String) :
    batch_query_drugbank_names api ids (some 1000) =
      ((postedBatches ids (some 1000)).map (_query_drugbank_names api)).reverse.flatten ∧
    (∀ b ∈ postedBatches ids (some 1000), b.length ≤ 1000) ∧
    (postedBatches ids (some 1000)).flatten = ids := by
  by_cases h : ids.length ≤ 1000
  · rw [show postedBatches ids (some 1000) = [ids] by
      simp only [postedBatches]
      rw [if_pos h]]
    refine ⟨?_, ?_, by simp⟩
    · simp [batch_query_drugbank_names, h]
    · intro b hb
      have : b = ids := by simpa using hb
      subst this
      exact h
  · rw [show postedBatches ids (some 1000) = makeBatches 1000 ids by
      simp only [postedBatches]
      rw [if_neg h]]
    refine ⟨?_, ?_, makeBatches_flatten 1000 (by omega) ids⟩
    · simp [batch_query_drugbank_names, h]
    · intro b hb
      exact length_le_of_mem_makeBatches 1000 ids b hb

/-- Witness for claim C8 at a concrete input. -/
theorem claim_C8_witness :
    (["DB1"].length ≤ 1000) ∧ (postedBatches ["DB1"] (some 1000)).flatten = ["DB1"] :=
  ⟨by decide, (claim_C8 (fun _ => none) ["DB1"]).2.2⟩

/-- Claim C9: the indication entry built from a row copies `ind_name`, `ind_id`,
`NCT`, `status` and `phase` verbatim into `name`, `umls`, `NCT`, `status` and
`phase`, and its `detailed_status` is the row's `DetailedStatus` with every
occurrence of a newline followed by four spaces replaced by a single space. -/
theorem claim_C9 (series : Row) :
    (IndicationEntry.ofRow series).name = series.ind_name ∧
    (IndicationEntry.ofRow series).umls = series.ind_id ∧
    (IndicationEntry.ofRow series).NCT = series.NCT ∧
    (IndicationEntry.ofRow series).status = series.status ∧
    (IndicationEntry.ofRow series).phase = series.phase ∧
    ReplacedNl4 series.DetailedStatus.data (IndicationEntry.ofRow series).detailed_status.data :=
  ⟨rfl, rfl, rfl, rfl, rfl, replaceNl4Go_spec _ _ (Nat.le_refl _)⟩

/-- Claim C10: on an empty dataframe `is_one_to_one` returns `false` (the
maximum of an empty group count is `NaN`, not 1), so `revise_drugbank_name`
fails its assertion on an empty dataset. -/
theorem claim_C10 (api : String → Option String) :
    is_one_to_one ([] : List Row) = false ∧ revise_drugbank_name api [] = none := by
  constructor
  · rfl
  · rfl

end RepoDB
